import Mathlib

/-!
Verification of the riboprof-tools core against its specification.

The genomic location model (strand, positions, spliced locations and the
two coordinate projections) lives in the external `bio_types` crate, so it
is modelled here from the specification (spec §3 data model and §4.1
contracts).  Everything else (`splice_compatible`, the framing classifier,
the A-site table, the transcript catalog, the statistics accumulators) is
translated directly from the repository sources.
-/

namespace Riboprof

/-- Modelled from the spec: `Strand` enumeration {Forward, Reverse}
(`bio_types::strand::ReqStrand`, not under `src/`). -/
inductive Strand where
  | fwd
  | rev
deriving DecidableEq, Repr

/-- Strand reversal. -/
def Strand.flip : Strand → Strand
  | .fwd => .rev
  | .rev => .fwd

/-- Modelled from the spec: `GenomicPosition` = (ReferenceId, integer
coordinate, Strand) (`bio_types::annot::pos::Pos`, not under `src/`). -/
structure GPos where
  refid : String
  pos : Int
  strand : Strand
deriving DecidableEq, Repr

/-- An exonic genomic sub-interval: (absolute genomic start, length). -/
abbrev Exon := Int × Nat

/-- Modelled from the spec: `SplicedLocation` = (ReferenceId, Strand,
ordered sequence of exonic genomic sub-intervals) in genomic order
(`bio_types::annot::spliced::Spliced`, not under `src/`). -/
structure Spliced where
  refid : String
  strand : Strand
  exons : List Exon
deriving DecidableEq, Repr

/-- The spec §3 invariant on a spliced location's exon list: nonempty,
positive lengths, strictly increasing and pairwise non-overlapping in
genomic order. -/
def exonsWF (es : List Exon) : Prop :=
  es ≠ [] ∧ (∀ e ∈ es, 0 < e.2) ∧ es.Pairwise (fun a b => a.1 + (a.2 : Int) ≤ b.1)

/-- A well-formed spliced location (spec §3). -/
def Spliced.WF (loc : Spliced) : Prop := exonsWF loc.exons

instance (es : List Exon) : Decidable (exonsWF es) := by
  unfold exonsWF; infer_instance

instance (loc : Spliced) : Decidable loc.WF := by
  unfold Spliced.WF; infer_instance

/-- Total length = sum of exon lengths (spec §3, §4.1
`exon_total_length`). -/
def exonTotalLength (es : List Exon) : Nat := (es.map Prod.snd).sum

/-- `exon_total_length` on a spliced location. -/
def Spliced.exon_total_length (loc : Spliced) : Nat := exonTotalLength loc.exons

/-- Offset of genomic coordinate `p` into the concatenation of the exons in
genomic order: walks the exon list and, on the first exon containing `p`,
returns the accumulated offset.  `none` when `p` lies in no exon. -/
def findFwdOffset : List Exon → Int → Option Nat
  | [], _ => none
  | e :: es, p =>
    if e.1 ≤ p ∧ p < e.1 + (e.2 : Int) then some (p - e.1).toNat
    else (findFwdOffset es p).map (· + e.2)

/-- Strand composition used by both projections: projecting through a
forward location keeps the strand, through a reverse location flips it. -/
def strandInto : Strand → Strand → Strand
  | .fwd, s => s
  | .rev, s => s.flip

/-- Modelled from the spec: `project_into` (§4.1) — the position expressed
in the location's internal coordinate system (0-based offset into the
concatenation of exons taken in transcription direction, i.e. reversed for
a reverse-strand location); `none` if `p` falls in no exon or is on a
different ReferenceId (`bio_types` `Loc::pos_into`, not under `src/`). -/
def pos_into (loc : Spliced) (p : GPos) : Option GPos :=
  if p.refid = loc.refid then
    (findFwdOffset loc.exons p.pos).map fun (fwdOff : Nat) =>
      let ipos : Int :=
        match loc.strand with
        | .fwd => (fwdOff : Int)
        | .rev => (loc.exon_total_length : Int) - 1 - (fwdOff : Int)
      ⟨loc.refid, ipos, strandInto loc.strand p.strand⟩
  else none

/-- Genomic coordinate at forward-concatenation offset `f`, walking the
exon list in genomic order; `none` when `f` is at or past the total
length. -/
def posAtFwdOffset : List Exon → Nat → Option Int
  | [], _ => none
  | e :: es, f => if f < e.2 then some (e.1 + (f : Int)) else posAtFwdOffset es (f - e.2)

/-- Modelled from the spec: `project_outof` (§4.1) — inverse of
`pos_into`; succeeds exactly for internal coordinates within
`[0, length)` (`bio_types` `Loc::pos_outof`, not under `src/`). -/
def pos_outof (loc : Spliced) (p : GPos) : Option GPos :=
  if 0 ≤ p.pos then
    let fwdOff : Int :=
      match loc.strand with
      | .fwd => p.pos
      | .rev => (loc.exon_total_length : Int) - 1 - p.pos
    if 0 ≤ fwdOff then
      (posAtFwdOffset loc.exons fwdOff.toNat).map fun g =>
        ⟨loc.refid, g, strandInto loc.strand p.strand⟩
    else none
  else none

/-- Modelled from the spec: a single contiguous block of a spliced
location (`bio_types::annot::contig::Contig`, not under `src/`). -/
structure Contig where
  refid : String
  start : Int
  length : Nat
  strand : Strand
deriving DecidableEq, Repr

/-- 5'-most position of a contig, on the contig's strand. -/
def Contig.first_pos (c : Contig) : GPos :=
  match c.strand with
  | .fwd => ⟨c.refid, c.start, c.strand⟩
  | .rev => ⟨c.refid, c.start + (c.length : Int) - 1, c.strand⟩

/-- 3'-most position of a contig, on the contig's strand. -/
def Contig.last_pos (c : Contig) : GPos :=
  match c.strand with
  | .fwd => ⟨c.refid, c.start + (c.length : Int) - 1, c.strand⟩
  | .rev => ⟨c.refid, c.start, c.strand⟩

/-- Modelled from the spec: the exonic blocks of a spliced location as
contigs, in transcription order (reversed iteration for a reverse-strand
location) (`bio_types` `Spliced::exon_contigs`, not under `src/`). -/
def Spliced.exon_contigs (loc : Spliced) : List Contig :=
  let cs := loc.exons.map fun e => Contig.mk loc.refid e.1 e.2 loc.strand
  match loc.strand with
  | .fwd => cs
  | .rev => cs.reverse

/-- Modelled from the spec: the 5'-most genomic position of a spliced
location, on the location's strand (`bio_types` `Loc::first_pos`, not
under `src/`). -/
def Spliced.first_pos (loc : Spliced) : GPos :=
  match loc.strand with
  | .fwd => ⟨loc.refid, ((loc.exons.head?.map Prod.fst).getD 0), .fwd⟩
  | .rev =>
    ⟨loc.refid, ((loc.exons.getLast?.map fun e => e.1 + (e.2 : Int) - 1).getD 0), .rev⟩

/-- Loop of `splice_compatible` (src/riboprof/transcript.rs) over the
remaining contigs of `inner`, carrying the previous block's mapped end
coordinate: each block's endpoints must map into `outer`, the block must
map without truncation, and consecutive blocks must abut exactly. -/
def spliceCompatAux (outer : Spliced) : Int → List Contig → Bool
  | _, [] => true
  | prevEnd, c :: cs =>
    match pos_into outer c.first_pos with
    | none => false
    | some cin =>
      if cin.pos ≠ prevEnd + 1 then false
      else
        match pos_into outer c.last_pos with
        | none => false
        | some cin2 =>
          if 1 + cin2.pos - cin.pos ≠ (c.length : Int) then false
          else spliceCompatAux outer cin2.pos cs

/-- `splice_compatible` (src/riboprof/transcript.rs): `inner` is
compatible with the splicing of `outer` — same strand, lies within it,
and has a congruent splicing structure. -/
def splice_compatible (outer inner : Spliced) : Bool :=
  match inner.exon_contigs with
  | [] => false
  | c0 :: rest =>
    match pos_into outer c0.first_pos with
    | none => false
    | some c0in =>
      if c0in.strand ≠ Strand.fwd then false
      else
        match pos_into outer c0.last_pos with
        | none => false
        | some c0in2 =>
          if 1 + c0in2.pos - c0in.pos ≠ (c0.length : Int) then false
          else spliceCompatAux outer c0in2.pos rest

/-- `Transcript` (src/riboprof/transcript.rs): gene identifier, transcript
identifier, spliced location, optional CDS as a half-open range in the
transcript's own internal coordinate. -/
structure Transcript where
  gene : String
  trxname : String
  loc : Spliced
  cds : Option (Nat × Nat)
deriving DecidableEq, Repr

/-- Modelled from the spec: `TranscriptPosition` = (reference to a
Transcript, 0-based internal coordinate) (§3; `TrxPos` lives in the part
of `codon_assign.rs` that is not under `src/`). -/
structure TrxPos where
  trx : Transcript
  pos : Nat
deriving DecidableEq, Repr

/-- Modelled from the spec: the position's signed offset from the CDS
start, nothing if the transcript has no CDS (§4.4;
`TrxPos::offset_from_cds_start`, not under `src/`). -/
def TrxPos.offset_from_cds_start (tp : TrxPos) : Option Int :=
  tp.trx.cds.map fun cds => (tp.pos : Int) - (cds.1 : Int)

/-- Modelled from the spec: the position's signed offset from the CDS end,
nothing if the transcript has no CDS (§4.4; `TrxPos::offset_from_cds_end`,
not under `src/`). -/
def TrxPos.offset_from_cds_end (tp : TrxPos) : Option Int :=
  tp.trx.cds.map fun cds => (tp.pos : Int) - (cds.2 : Int)

/-- Modelled from the spec: frame is the offset from the CDS start mod 3,
normalized to {0,1,2}; nothing if the transcript has no CDS (§4.4;
`TrxPos::cds_frame`, not under `src/`). -/
def TrxPos.cds_frame (tp : TrxPos) : Option Nat :=
  tp.trx.cds.map fun cds => (((tp.pos : Int) - (cds.1 : Int)).emod 3).toNat

/-- `body_frame` (src/riboprof/fp_framing/framing.rs): the reading frame
of the transcript position, provided it lies within the CDS "body" window
`cds_start + cdsbody.1 <= pos <= cds_end + cdsbody.2`. -/
def body_frame (cdsbody : Int × Int) (trxpos : TrxPos) : Option Nat :=
  match trxpos.offset_from_cds_start with
  | none => none
  | some vs_start =>
    match trxpos.offset_from_cds_end with
    | none => none
    | some vs_end =>
      if vs_start ≥ cdsbody.1 ∧ vs_end ≤ cdsbody.2 then trxpos.cds_frame else none

/-- `all_if_same` (src/riboprof/fp_framing/framing.rs): `some` iff the
list is nonempty and all items are equal. -/
def allIfSame {T : Type} [DecidableEq T] : List T → Option T
  | [] => none
  | x0 :: xs => if xs.all (fun x => x = x0) then some x0 else none

/-- `fp_into_transcript` (src/riboprof/fp_framing/framing.rs): the
transcript position of the footprint's 5' end, provided the footprint is
splice-compatible with the transcript.  The source's `expect` and two
`assert!`s (projection succeeds, Forward strand, non-negative coordinate)
are embedded as guards. -/
def fp_into_transcript (fp : Spliced) (trx : Transcript) : Option TrxPos :=
  if splice_compatible trx.loc fp then
    match pos_into trx.loc fp.first_pos with
    | none => none
    | some p =>
      if p.strand = Strand.fwd ∧ 0 ≤ p.pos then some ⟨trx, p.pos.toNat⟩ else none
  else none

/-- `GeneFraming` (src/riboprof/fp_framing/framing.rs): framing
information for a footprint relative to a gene. -/
structure GeneFraming where
  gene : String
  vs_cds_start : Option Int
  vs_cds_end : Option Int
  frame : Option Nat
  fp_length : Nat
deriving DecidableEq, Repr

/-- `GeneFrameResult` (src/riboprof/fp_framing/framing.rs). -/
inductive GeneFrameResult where
  | Good (gf : GeneFraming)
  | NoCompatible
  | Ambig
deriving DecidableEq, Repr

/-- The transcript positions of the footprint's 5' end in each compatible
transcript (the `termini` of `gene_framing`). -/
def terminiOf (trxs : List Transcript) (fp : Spliced) : List TrxPos :=
  trxs.filterMap fun trx => fp_into_transcript fp trx

/-- The per-transcript frame values computed by `gene_framing` (the
`frames` vector). -/
def framesOf (cdsbody : Int × Int) (trxs : List Transcript) (fp : Spliced) : List Nat :=
  (terminiOf trxs fp).filterMap fun trxpos => body_frame cdsbody trxpos

/-- The per-transcript offsets from the CDS start collected by
`gene_framing`. -/
def startOffsetsOf (trxs : List Transcript) (fp : Spliced) : List Int :=
  (terminiOf trxs fp).filterMap TrxPos.offset_from_cds_start

/-- The per-transcript offsets from the CDS end collected by
`gene_framing`. -/
def endOffsetsOf (trxs : List Transcript) (fp : Spliced) : List Int :=
  (terminiOf trxs fp).filterMap TrxPos.offset_from_cds_end

/-- `gene_framing` (src/riboprof/fp_framing/framing.rs): framing of a
footprint relative to a gene given by one or more (coding)
transcripts. -/
def gene_framing (cdsbody : Int × Int) (trxs : List Transcript) (fp : Spliced) :
    GeneFrameResult :=
  match trxs with
  | [] => GeneFrameResult.NoCompatible
  | t0 :: _ =>
    let gene := t0.gene
    let fp_length := fp.exon_total_length
    let termini := terminiOf trxs fp
    if termini.isEmpty then GeneFrameResult.NoCompatible
    else
      let vs_cds_start := allIfSame (startOffsetsOf trxs fp)
      let vs_cds_end := allIfSame (endOffsetsOf trxs fp)
      let frames := framesOf cdsbody trxs fp
      if frames.length > 1 then GeneFrameResult.Ambig
      else
        GeneFrameResult.Good
          { gene := gene
            vs_cds_start := vs_cds_start
            vs_cds_end := vs_cds_end.map (fun x => x + 3)
            frame := allIfSame frames
            fp_length := fp_length }

/-- Split a character list at newline characters (the behaviour of
`str::lines` before dropping a trailing empty segment). -/
def splitNL : List Char → List (List Char)
  | [] => [[]]
  | c :: cs =>
    if c = '\n' then [] :: splitNL cs
    else
      match splitNL cs with
      | g :: gs => (c :: g) :: gs
      | [] => [[c]]

/-- `str::lines` (used by `ASites::from_str`): the lines of the input,
with an optional final line ending. -/
def rustLines (s : String) : List (List Char) :=
  let parts := splitNL s.data
  match parts.getLast? with
  | some [] => parts.dropLast
  | _ => parts

/-- The Unicode White_Space property, the character class trimmed by
`str::trim_right` (`char::is_whitespace`): the 25 White_Space code
points, stable across Unicode versions. -/
def isWhiteSpaceRust (c : Char) : Bool :=
  c.toNat = 0x09 ∨ c.toNat = 0x0A ∨ c.toNat = 0x0B ∨ c.toNat = 0x0C ∨ c.toNat = 0x0D ∨
    c.toNat = 0x20 ∨ c.toNat = 0x85 ∨ c.toNat = 0xA0 ∨ c.toNat = 0x1680 ∨
    (0x2000 ≤ c.toNat ∧ c.toNat ≤ 0x200A) ∨ c.toNat = 0x2028 ∨ c.toNat = 0x2029 ∨
    c.toNat = 0x202F ∨ c.toNat = 0x205F ∨ c.toNat = 0x3000

/-- `str::trim_right`: drop trailing Unicode-whitespace characters. -/
def trimRight (cs : List Char) : List Char :=
  (cs.reverse.dropWhile isWhiteSpaceRust).reverse

/-- The regex `^(\d+)\t(\d+)$` of `ASites::from_str`: a nonempty run of
digits, one tab character, and a nonempty run of digits; returns the two
capture groups.  The source's regex crate gives `\d` its Unicode meaning
(`\p{Nd}`); this embedding uses the ASCII fragment `0-9`, which is exact
on ASCII input — the theorem about `ASites::from_str` below is therefore
stated for ASCII tables. -/
def shapeMatch (cs : List Char) : Option (List Char × List Char) :=
  let ds := cs.takeWhile Char.isDigit
  let rest := cs.dropWhile Char.isDigit
  if ds = [] then none
  else
    match rest with
    | '\t' :: bs => if bs ≠ [] ∧ bs.all Char.isDigit then some (ds, bs) else none
    | _ => none

/-- Numeric value of a digit run. -/
def digitsToNat (ds : List Char) : Nat :=
  ds.foldl (fun a c => a * 10 + (c.toNat - '0'.toNat)) 0

/-- `str::parse::<usize>` on a digit run: the value, unless it overflows
the 64-bit machine word. -/
def parseUsize (ds : List Char) : Option Nat :=
  if digitsToNat ds < 2 ^ 64 then some (digitsToNat ds) else none

/-- `ASiteParseError` (src/riboprof/codon_assign.rs).  `BadLength` and
`BadOffset` carry the capture-group string the source formats into the
message (the source passes `cap[1]` for both). -/
inductive ASiteParseError where
  | BadLine (line : String)
  | BadLength (cap : String)
  | BadOffset (cap : String)
deriving DecidableEq, Repr

/-- The offset-vector update of `ASites::from_str`'s loop body: pad the
vector with `None` while its length is at most `len`, then set entry
`len` to `Some off`. -/
def extendSet : List (Option Nat) → Nat → Nat → List (Option Nat)
  | [], 0, off => [some off]
  | [], l + 1, off => none :: extendSet [] l off
  | _ :: v, 0, off => some off :: v
  | x :: v, l + 1, off => x :: extendSet v l off

/-- `Vec::get(len).unwrap_or(&None)`: the entry at index `len`, or `None`
out of bounds. -/
def offsetGet : List (Option Nat) → Nat → Option Nat
  | [], _ => none
  | x :: _, 0 => x
  | _ :: v, l + 1 => offsetGet v l

/-- `ASites` (src/riboprof/codon_assign.rs): A-site offsets indexed by
fragment length. -/
structure ASites where
  a_site_offsets : List (Option Nat)
deriving DecidableEq, Repr

/-- `ASites::offset` (src/riboprof/codon_assign.rs): the A-site offset for
a fragment length, if recorded. -/
def ASites.offset (a : ASites) (len : Nat) : Option Nat :=
  offsetGet a.a_site_offsets len

/-- The line loop of `ASites::from_str`: each line is right-trimmed,
matched against `^(\d+)\t(\d+)$`, and its two numbers parsed; the first
failure aborts with the corresponding error. -/
def asitesLoop : List (Option Nat) → List (List Char) → Except ASiteParseError (List (Option Nat))
  | offsets, [] => .ok offsets
  | offsets, line :: rest =>
    let l := trimRight line
    match shapeMatch l with
    | none => .error (.BadLine (String.mk l))
    | some (dsLen, dsOff) =>
      match parseUsize dsLen with
      | none => .error (.BadLength (String.mk dsLen))
      | some len =>
        match parseUsize dsOff with
        | none => .error (.BadOffset (String.mk dsLen))
        | some off => asitesLoop (extendSet offsets len off) rest

/-- `ASites::from_str` (src/riboprof/codon_assign.rs): parse a
tab-delimited table of length / offset pairs. -/
def ASites.from_str (table : String) : Except ASiteParseError ASites :=
  (asitesLoop [] (rustLines table)).map ASites.mk

/-- The offset vector built by feeding a list of length / offset pairs
through the loop body of `ASites::from_str`. -/
def buildFromPairs (ps : List (Nat × Nat)) : List (Option Nat) :=
  ps.foldl (fun v p => extendSet v p.1 p.2) []

/-- A line acceptable to `ASites::from_str`: after right-trimming it
matches `^(\d+)\t(\d+)$` and both numbers fit in a machine word. -/
def goodLine (line : List Char) : Bool :=
  match shapeMatch (trimRight line) with
  | none => false
  | some (a, b) => (parseUsize a).isSome && (parseUsize b).isSome

/-- Whether an `Except` result is a success. -/
def exceptOk {ε α : Type} : Except ε α → Bool
  | .ok _ => true
  | .error _ => false

/-- One CIGAR operation of an alignment record (spec §6: aligned /
inserted / deleted / skipped / clipped segments). -/
inductive Cigar where
  | m (len : Nat)
  | ins (len : Nat)
  | del (len : Nat)
  | refSkip (len : Nat)
  | softClip (len : Nat)
  | hardClip (len : Nat)
  | pad (len : Nat)
  | equal (len : Nat)
  | diff (len : Nat)
deriving DecidableEq, Repr

/-- An alignment record as consumed by this core (spec §6): target id,
leftmost coordinate, strand flag, CIGAR, and the optional integer `NH`
("number of hits") and `HI` ("hit index") tags.  An unmapped record has a
negative target id. -/
structure BamRec where
  nh : Option Int
  hi : Option Int
  tid : Int
  pos : Int
  reverse : Bool
  cigar : List Cigar
deriving DecidableEq, Repr

/-- `is_single_hit` (src/riboprof/fp_framing/framing.rs): `NH == 1`,
defaulting to true when the tag is absent. -/
def is_single_hit (rec : BamRec) : Bool :=
  match rec.nh with
  | some nh => nh = 1
  | none => true

/-- `is_first_hit` (src/riboprof/fp_framing/framing.rs): `HI == 1`. -/
def is_first_hit (rec : BamRec) : Bool := rec.hi = some 1

/-- Loop of `cigar_to_lengths_starts` (src/riboprof/bam_utils.rs),
carrying the current block's start and end offsets and the accumulated
(lengths, starts) vectors. -/
def cigarLoop : Nat → Nat → List Nat → List Nat → List Cigar → List Nat × List Nat
  | currStart, currEnd, lengths, starts, [] =>
    if currStart < currEnd then (lengths ++ [currEnd - currStart], starts ++ [currStart])
    else (lengths, starts)
  | currStart, currEnd, lengths, starts, c :: cs =>
    match c with
    | .m len => cigarLoop currStart (currEnd + len) lengths starts cs
    | .ins _ => cigarLoop currStart currEnd lengths starts cs
    | .del len => cigarLoop currStart (currEnd + len) lengths starts cs
    | .refSkip len =>
      if currStart < currEnd then
        cigarLoop (currEnd + len) (currEnd + len)
          (lengths ++ [currEnd - currStart]) (starts ++ [currStart]) cs
      else cigarLoop (currEnd + len) (currEnd + len) lengths starts cs
    | .softClip _ => cigarLoop currStart currEnd lengths starts cs
    | .hardClip _ => cigarLoop currStart currEnd lengths starts cs
    | .pad _ => cigarLoop currStart currEnd lengths starts cs
    | .equal len => cigarLoop currStart (currEnd + len) lengths starts cs
    | .diff len => cigarLoop currStart (currEnd + len) lengths starts cs

/-- `cigar_to_lengths_starts` (src/riboprof/bam_utils.rs): exon block
lengths and starts (relative to the record position) from a CIGAR;
skipped segments become introns. -/
def cigar_to_lengths_starts (cs : List Cigar) : List Nat × List Nat :=
  cigarLoop 0 0 [] [] cs

/-- `Tids` (src/riboprof/bam_utils.rs): target id to reference name. -/
structure Tids where
  tids : List String
deriving DecidableEq, Repr

/-- `Tids::get`. -/
def Tids.get (t : Tids) (tid : Nat) : Option String := t.tids.get? tid

/-- Well-formedness check on an exon list, as a boolean. -/
def exonsOk : List Exon → Bool
  | [] => false
  | [e] => 0 < e.2
  | a :: b :: es => (0 < a.2 ∧ a.1 + (a.2 : Int) ≤ b.1) ∧ exonsOk (b :: es)

/-- Modelled from the spec: `Spliced::with_lengths_starts` (`bio_types`,
not under `src/`) — build a spliced location from block lengths and
starts, failing when the blocks violate the §3 invariant. -/
def withLengthsStarts (refid : String) (start : Int) (lengths starts : List Nat)
    (strand : Strand) : Except String Spliced :=
  let exons := List.zipWith (fun l s => ((start + (s : Int), l) : Exon)) lengths starts
  if exonsOk exons then .ok ⟨refid, strand, exons⟩
  else .error "splicing error"

/-- `bam_to_spliced` (src/riboprof/bam_utils.rs): the genomic footprint of
an alignment record — `none` for an unmapped record, an error for a
target id absent from the catalog or an invalid block structure. -/
def bam_to_spliced (tids : Tids) (record : BamRec) : Except String (Option Spliced) :=
  if record.tid < 0 then .ok none
  else
    let ls := cigar_to_lengths_starts record.cigar
    match tids.get record.tid.toNat with
    | none => .error "BAM target ID out of range"
    | some refid =>
      let strand := if record.reverse then Strand.rev else Strand.fwd
      match withLengthsStarts refid record.pos ls.1 ls.2 strand with
      | .error e => .error e
      | .ok spliced => .ok (some spliced)

/-- `FpFrameResult` (src/riboprof/fp_framing/framing.rs). -/
inductive FpFrameResult where
  | Gene (gfr : GeneFrameResult)
  | NoGene
  | NoncodingOnly
  | NoncodingOverlap
  | MultiCoding
deriving DecidableEq, Repr

/-- `BamFrameResult` (src/riboprof/fp_framing/framing.rs). -/
inductive BamFrameResult where
  | NoHit
  | MultiHit
  | TooShort
  | TooLong
  | Fp (ffr : FpFrameResult)
deriving DecidableEq, Repr

/-- `Transcript::is_coding` — modelled from the spec (§4.4 distinguishes
coding transcripts, those with a CDS, from non-coding ones; the method is
not under `src/`). -/
def Transcript.is_coding (t : Transcript) : Bool := t.cds.isSome

/-- `Transcriptome` (src/riboprof/transcript.rs): the transcript catalog
with its four internal maps (hash maps modelled as association lists, the
location index as an insertion list). -/
structure Transcriptome where
  gene_to_trxnames : List (String × List String)
  trxname_to_gene : List (String × String)
  trxname_to_transcript : List (String × Transcript)
  trxname_by_location : List (String × Spliced)
deriving DecidableEq, Repr

/-- `Transcriptome::new`. -/
def Transcriptome.new : Transcriptome := ⟨[], [], [], []⟩

/-- Association-list lookup (first match), the model of `HashMap::get`. -/
def assocLookup {β : Type} : List (String × β) → String → Option β
  | [], _ => none
  | (k, v) :: l, key => if k = key then some v else assocLookup l key

/-- Association-list membership, the model of `HashMap::contains_key`. -/
def assocContains {β : Type} (l : List (String × β)) (key : String) : Bool :=
  (assocLookup l key).isSome

/-- Association-list insert (replace or prepend), the model of
`HashMap::insert`. -/
def assocInsert {β : Type} : List (String × β) → String → β → List (String × β)
  | [], key, v => [(key, v)]
  | (k, w) :: l, key, v =>
    if k = key then (key, v) :: l else (k, w) :: assocInsert l key v

/-- The model of `HashMap::entry(key).or_insert(dflt)` followed by an
update of the entry's value. -/
def assocUpdate {β : Type} : List (String × β) → String → (β → β) → β → List (String × β)
  | [], key, f, dflt => [(key, f dflt)]
  | (k, w) :: l, key, f, dflt =>
    if k = key then (key, f w) :: l else (k, w) :: assocUpdate l key f dflt

/-- `TrxError` (src/riboprof/transcript.rs), restricted to the variant
the catalog's `insert` produces. -/
inductive TrxError where
  | TrxExists (trxname : String)
deriving DecidableEq, Repr

/-- `Transcriptome::insert` (src/riboprof/transcript.rs): reject a
duplicate transcript identifier, otherwise record the transcript in all
the indices.  The pair returns the call's result together with the
catalog state after the call (`&mut self` in the source). -/
def Transcriptome.insert (tome : Transcriptome) (t : Transcript) :
    Except TrxError String × Transcriptome :=
  if assocContains tome.trxname_to_transcript t.trxname then
    (.error (.TrxExists t.trxname), tome)
  else
    (.ok t.trxname,
      { gene_to_trxnames :=
          assocUpdate tome.gene_to_trxnames t.gene (fun v => v ++ [t.trxname]) []
        trxname_to_gene := assocInsert tome.trxname_to_gene t.trxname t.gene
        trxname_to_transcript := assocInsert tome.trxname_to_transcript t.trxname t
        trxname_by_location := (t.trxname, t.loc) :: tome.trxname_by_location })

/-- Bounding genomic interval of a spliced location: absolute min and max
coordinate over its exons. -/
def Spliced.bounds (loc : Spliced) : Int × Int :=
  ((loc.exons.head?.map Prod.fst).getD 0,
   (loc.exons.getLast?.map fun e => e.1 + (e.2 : Int)).getD 0)

/-- Modelled from the spec: `Transcriptome::find_at_loc` (§4.2) — the
coarse bounding-interval lookup by reference sequence and absolute
min/max coordinate over the location index (`AnnotMap::find` is an
external capability, not under `src/`); candidates may be false
positives. -/
def Transcriptome.find_at_loc (tome : Transcriptome) (loc : Spliced) : List Transcript :=
  tome.trxname_by_location.filterMap fun ent =>
    if ent.2.refid = loc.refid ∧
        (loc.bounds.1 < ent.2.bounds.2 ∧ ent.2.bounds.1 < loc.bounds.2) then
      assocLookup tome.trxname_to_transcript ent.1
    else none

/-- Modelled from the spec: `Transcript::group_by_gene` (§4.2) — a pure
grouping of transcripts by gene identifier, no ordering guarantee (the
method is not under `src/`; groups appear here in first-appearance
order). -/
def group_by_gene (trxs : List Transcript) : List (String × List Transcript) :=
  (trxs.map Transcript.gene).eraseDups.map fun g =>
    (g, trxs.filter fun t => t.gene = g)

/-- `footprint_framing` (src/riboprof/fp_framing/framing.rs): resolve the
genes overlapping the footprint and classify. -/
def footprint_framing (trxome : Transcriptome) (fp : Spliced) (cdsbody : Int × Int) :
    FpFrameResult :=
  let gene_sets := group_by_gene (trxome.find_at_loc fp)
  if gene_sets.length > 1 then
    let isCoding := gene_sets.map fun gs => gs.2.any Transcript.is_coding
    if isCoding.all id then FpFrameResult.MultiCoding
    else if isCoding.any id then FpFrameResult.NoncodingOverlap
    else FpFrameResult.NoncodingOnly
  else
    match gene_sets with
    | (_, trxs) :: _ =>
      let codingTrxs := trxs.filter Transcript.is_coding
      if codingTrxs.isEmpty then FpFrameResult.NoncodingOnly
      else FpFrameResult.Gene (gene_framing cdsbody codingTrxs fp)
    | [] => FpFrameResult.NoGene

/-- `record_framing` (src/riboprof/fp_framing/framing.rs): the per-record
classification pipeline. -/
def record_framing (trxome : Transcriptome) (tids : Tids) (rec : BamRec)
    (lengths : Nat × Nat) (cdsbody : Int × Int) (count_multi : Bool) :
    Except String BamFrameResult :=
  if ¬(is_single_hit rec || (count_multi && is_first_hit rec)) then
    .ok BamFrameResult.MultiHit
  else
    match bam_to_spliced tids rec with
    | .error e => .error e
    | .ok none => .ok BamFrameResult.NoHit
    | .ok (some fp) =>
      let fpLen := fp.exon_total_length
      if fpLen < lengths.1 then .ok BamFrameResult.TooShort
      else if fpLen > lengths.2 then .ok BamFrameResult.TooLong
      else .ok (BamFrameResult.Fp (footprint_framing trxome fp cdsbody))

/-- `AnnotStats` (src/riboprof/fp_framing/stats.rs): the seven
annotation-outcome counters. -/
structure AnnotStats where
  no_gene : Nat
  noncoding : Nat
  noncoding_overlap : Nat
  multi_coding : Nat
  incompatible : Nat
  ambig : Nat
  good : Nat
deriving DecidableEq, Repr

/-- `AnnotStats::new`. -/
def AnnotStats.new : AnnotStats := ⟨0, 0, 0, 0, 0, 0, 0⟩

/-- `AnnotStats::tally_fp_frame` (src/riboprof/fp_framing/stats.rs). -/
def AnnotStats.tally_fp_frame (s : AnnotStats) : FpFrameResult → AnnotStats
  | .NoGene => { s with no_gene := s.no_gene + 1 }
  | .NoncodingOnly => { s with noncoding := s.noncoding + 1 }
  | .NoncodingOverlap => { s with noncoding_overlap := s.noncoding_overlap + 1 }
  | .MultiCoding => { s with multi_coding := s.multi_coding + 1 }
  | .Gene .NoCompatible => { s with incompatible := s.incompatible + 1 }
  | .Gene .Ambig => { s with ambig := s.ambig + 1 }
  | .Gene (.Good _) => { s with good := s.good + 1 }

/-- `AnnotStats::bad_total`. -/
def AnnotStats.bad_total (s : AnnotStats) : Nat :=
  s.no_gene + s.noncoding + s.noncoding_overlap + s.multi_coding + s.incompatible + s.ambig

/-- `AnnotStats::total`. -/
def AnnotStats.total (s : AnnotStats) : Nat := s.bad_total + s.good

/-- `AlignStats` (src/riboprof/fp_framing/stats.rs): the alignment-level
counters together with the nested annotation-level counters. -/
structure AlignStats where
  unmapped : Nat
  short : Nat
  long : Nat
  multi_hit : Nat
  annot_stats : AnnotStats
deriving DecidableEq, Repr

/-- `AlignStats::new`. -/
def AlignStats.new : AlignStats := ⟨0, 0, 0, 0, AnnotStats.new⟩

/-- `AlignStats::tally_bam_frame` (src/riboprof/fp_framing/stats.rs). -/
def AlignStats.tally_bam_frame (s : AlignStats) : BamFrameResult → AlignStats
  | .NoHit => { s with unmapped := s.unmapped + 1 }
  | .MultiHit => { s with multi_hit := s.multi_hit + 1 }
  | .TooShort => { s with short := s.short + 1 }
  | .TooLong => { s with long := s.long + 1 }
  | .Fp ffr => { s with annot_stats := s.annot_stats.tally_fp_frame ffr }

/-- `AlignStats::bad_total`. -/
def AlignStats.bad_total (s : AlignStats) : Nat :=
  s.unmapped + s.short + s.long + s.multi_hit

/-- `AlignStats::good_total`. -/
def AlignStats.good_total (s : AlignStats) : Nat := s.annot_stats.total

/-- `AlignStats::total`. -/
def AlignStats.total (s : AlignStats) : Nat := s.bad_total + s.good_total

/-- The eleven terminal-outcome counters of the statistics, in a fixed
order: the four alignment-level ones and the seven annotation-level
ones. -/
def AlignStats.counters (s : AlignStats) : List Nat :=
  [s.unmapped, s.short, s.long, s.multi_hit,
   s.annot_stats.no_gene, s.annot_stats.noncoding, s.annot_stats.noncoding_overlap,
   s.annot_stats.multi_coding, s.annot_stats.incompatible, s.annot_stats.ambig,
   s.annot_stats.good]

/-- Increment the entry at an index of a counter list. -/
def incAt : Nat → List Nat → List Nat
  | _, [] => []
  | 0, x :: xs => (x + 1) :: xs
  | i + 1, x :: xs => x :: incAt i xs

/-! Concrete instances used in counterexamples and witnesses. -/

/-- A coding transcript of gene `GENE1`: single exon `chr1:1000-1300(+)`,
CDS `[0, 300)`. -/
def trxGene1A : Transcript :=
  ⟨"GENE1", "TRX1A", ⟨"chr1", .fwd, [(1000, 300)]⟩, some (0, 300)⟩

/-- A second coding transcript of gene `GENE1` at the same location, CDS
`[30, 300)` — its CDS start differs from `trxGene1A`'s by 30, a multiple
of 3, so both yield the same frame for any position. -/
def trxGene1B : Transcript :=
  ⟨"GENE1", "TRX1B", ⟨"chr1", .fwd, [(1000, 300)]⟩, some (30, 300)⟩

/-- A footprint `chr1:1100-1128(+)` compatible with both `GENE1`
transcripts. -/
def fpGene1 : Spliced := ⟨"chr1", .fwd, [(1100, 28)]⟩

/-- The transcript `YAL030W` of the repository's own unit tests
(`chr01:87261-87387;87500-87822(+)`, CDS `[24, 378)`). -/
def trxYAL030W : Transcript :=
  ⟨"YAL030W", "YAL030W", ⟨"chr01", .fwd, [(87261, 126), (87500, 322)]⟩, some (24, 378)⟩

/-- The footprint `chr01:87276-87305(+)` of the repository's own unit
test `gene_framing_1trx`. -/
def fpYAL030W : Spliced := ⟨"chr01", .fwd, [(87276, 29)]⟩

/-- A mapped record with `NH = 3` and no `HI` tag. -/
def recNH3 : BamRec := ⟨some 3, none, 0, 1000, false, [Cigar.m 28]⟩

/-- A two-exon reverse-strand location used as a witness input. -/
def locW : Spliced := ⟨"chr1", .rev, [(100, 10), (200, 5)]⟩

/-- A single-exon footprint compatible with `trxGene1A`. -/
def fpW10 : Spliced := ⟨"chr1", .fwd, [(1010, 20)]⟩

/-! Theorems. -/

/-- C1 (counterexample): two coding transcripts of gene `GENE1` each
produce a frame value for the footprint and the produced values are equal
(`[1, 1]` — one distinct value), their CDS-start offsets disagree, yet
`gene_framing` returns `Ambig`, not `Good` with the frame present: the
source tests `frames.len() > 1`, not the number of distinct values. -/
theorem gene_framing_equal_frames_ambig :
    framesOf (15, -15) [trxGene1A, trxGene1B] fpGene1 = [1, 1] ∧
    startOffsetsOf [trxGene1A, trxGene1B] fpGene1 = [100, 70] ∧
    gene_framing (15, -15) [trxGene1A, trxGene1B] fpGene1 = GeneFrameResult.Ambig :=
  ⟨rfl, rfl, rfl⟩

/-- C1 (amended): in gene-level framing the outcome is `Ambig` exactly
when more than one compatible transcript produces a frame value — whether
or not the produced values are distinct. -/
theorem gene_framing_ambig_iff (cdsbody : Int × Int) (trxs : List Transcript) (fp : Spliced) :
    gene_framing cdsbody trxs fp = GeneFrameResult.Ambig ↔
      1 < (framesOf cdsbody trxs fp).length := by
  cases trxs with
  | nil => simp [gene_framing, framesOf, terminiOf]
  | cons t ts =>
    simp only [gene_framing]
    by_cases h : (terminiOf (t :: ts) fp).isEmpty
    · have hf : framesOf cdsbody (t :: ts) fp = [] := by
        unfold framesOf
        rw [List.isEmpty_iff.mp h]
        rfl
      simp [h, hf]
    · by_cases h2 : 1 < (framesOf cdsbody (t :: ts) fp).length
      · simp [h, h2]
      · simp [h, h2]

/-- C1 (witness): the amended rule applied at the concrete input. -/
theorem gene_framing_ambig_iff_witness :
    gene_framing (15, -15) [trxGene1A, trxGene1B] fpGene1 = GeneFrameResult.Ambig :=
  (gene_framing_ambig_iff (15, -15) [trxGene1A, trxGene1B] fpGene1).mpr (by decide)

/-- C2: on the repository's own unit-test input (transcript `YAL030W`,
footprint `chr01:87276-87305(+)`) the single compatible transcript
produces the CDS-end offset `-363`, but `gene_framing` reports
`vs_cds_end = -360`: the source adds `+3` to the agreed value, so the
reported offset is not the produced one (the repository's own test
`gene_framing_1trx` expects the rendering `YAL030W / -9 / -363 / *`
here, with the fields separated by slashes). -/
theorem gene_framing_vs_cds_end_plus3 :
    endOffsetsOf [trxYAL030W] fpYAL030W = [-363] ∧
    gene_framing (15, -15) [trxYAL030W] fpYAL030W =
      GeneFrameResult.Good ⟨"YAL030W", some (-9), some (-360), none, 29⟩ :=
  ⟨rfl, rfl⟩

/-- Helper: a single tally increments the grand total by exactly one. -/
theorem tally_total_succ (s : AlignStats) (r : BamFrameResult) :
    (s.tally_bam_frame r).total = s.total + 1 := by
  have harith : ∀ s2 : AlignStats, s2.total =
      s2.unmapped + s2.short + s2.long + s2.multi_hit +
        (s2.annot_stats.no_gene + s2.annot_stats.noncoding +
          s2.annot_stats.noncoding_overlap + s2.annot_stats.multi_coding +
          s2.annot_stats.incompatible + s2.annot_stats.ambig + s2.annot_stats.good) := by
    intro s2
    simp only [AlignStats.total, AlignStats.bad_total, AlignStats.good_total, AnnotStats.total,
      AnnotStats.bad_total]
  rw [harith, harith]
  cases r with
  | NoHit => simp only [AlignStats.tally_bam_frame]; omega
  | MultiHit => simp only [AlignStats.tally_bam_frame]; omega
  | TooShort => simp only [AlignStats.tally_bam_frame]; omega
  | TooLong => simp only [AlignStats.tally_bam_frame]; omega
  | Fp ffr =>
    cases ffr with
    | NoGene => simp only [AlignStats.tally_bam_frame, AnnotStats.tally_fp_frame]; omega
    | NoncodingOnly => simp only [AlignStats.tally_bam_frame, AnnotStats.tally_fp_frame]; omega
    | NoncodingOverlap => simp only [AlignStats.tally_bam_frame, AnnotStats.tally_fp_frame]; omega
    | MultiCoding => simp only [AlignStats.tally_bam_frame, AnnotStats.tally_fp_frame]; omega
    | Gene gfr =>
      cases gfr with
      | Good gf => simp only [AlignStats.tally_bam_frame, AnnotStats.tally_fp_frame]; omega
      | NoCompatible => simp only [AlignStats.tally_bam_frame, AnnotStats.tally_fp_frame]; omega
      | Ambig => simp only [AlignStats.tally_bam_frame, AnnotStats.tally_fp_frame]; omega

/-- Helper: a single tally increments exactly one of the eleven
terminal-outcome counters. -/
theorem tally_counters_one (s : AlignStats) (r : BamFrameResult) :
    ∃ i, i < 11 ∧ (s.tally_bam_frame r).counters = incAt i s.counters := by
  cases r with
  | NoHit => exact ⟨0, by omega, rfl⟩
  | MultiHit => exact ⟨3, by omega, rfl⟩
  | TooShort => exact ⟨1, by omega, rfl⟩
  | TooLong => exact ⟨2, by omega, rfl⟩
  | Fp ffr =>
    cases ffr with
    | NoGene => exact ⟨4, by omega, rfl⟩
    | NoncodingOnly => exact ⟨5, by omega, rfl⟩
    | NoncodingOverlap => exact ⟨6, by omega, rfl⟩
    | MultiCoding => exact ⟨7, by omega, rfl⟩
    | Gene gfr =>
      cases gfr with
      | Good gf => exact ⟨10, by omega, rfl⟩
      | NoCompatible => exact ⟨8, by omega, rfl⟩
      | Ambig => exact ⟨9, by omega, rfl⟩

/-- C9: every call to `AlignStats::tally_bam_frame` increments exactly
one terminal-outcome counter, and after tallying N classification results
starting from fresh statistics, `AlignStats::total` equals N. -/
theorem align_stats_total_eq_records :
    (∀ (s : AlignStats) (r : BamFrameResult),
        ∃ i, i < 11 ∧ (s.tally_bam_frame r).counters = incAt i s.counters) ∧
    ∀ rs : List BamFrameResult,
      (rs.foldl AlignStats.tally_bam_frame AlignStats.new).total = rs.length := by
  refine ⟨tally_counters_one, ?_⟩
  have key : ∀ (rs : List BamFrameResult) (s : AlignStats),
      (rs.foldl AlignStats.tally_bam_frame s).total = s.total + rs.length := by
    intro rs
    induction rs with
    | nil => intro s; simp
    | cons r rs ih =>
      intro s
      rw [List.foldl_cons, ih, tally_total_succ]
      simp
      omega
  intro rs
  rw [key]
  have hnew : AlignStats.new.total = 0 := rfl
  omega

/-- C5: `record_framing` classifies a record as `MultiHit` exactly when
the record is not retained under the multi-mapping policy (`NH == 1` or
absent, or — when counting multi-mappers once — `HI == 1`); a retained
record never reaches the `MultiHit` outcome. -/
theorem record_framing_multihit_iff (trxome : Transcriptome) (tids : Tids) (rec : BamRec)
    (lengths : Nat × Nat) (cdsbody : Int × Int) (cm : Bool) :
    record_framing trxome tids rec lengths cdsbody cm = .ok BamFrameResult.MultiHit ↔
      (is_single_hit rec || (cm && is_first_hit rec)) = false := by
  unfold record_framing
  by_cases h : (is_single_hit rec || (cm && is_first_hit rec)) = true
  · simp only [h]
    cases hb : bam_to_spliced tids rec with
    | error e => simp
    | ok o =>
      cases o with
      | none => simp
      | some fp =>
        simp only [if_neg (by simp : ¬¬True)]
        split_ifs <;> simp
  · have hb : (is_single_hit rec || (cm && is_first_hit rec)) = false := by
      simpa using h
    simp [hb]

/-- C5 (witness): a mapped record with `NH = 3` under the default policy
is classified `MultiHit`. -/
theorem record_framing_multihit_witness :
    record_framing Transcriptome.new ⟨["chr1"]⟩ recNH3 (25, 34) (15, -15) false =
      .ok BamFrameResult.MultiHit :=
  (record_framing_multihit_iff Transcriptome.new ⟨["chr1"]⟩ recNH3 (25, 34) (15, -15)
    false).mpr (by decide)

/-- Helper: looking up the inserted key finds the inserted value. -/
theorem assocLookup_insert_self {β : Type} (l : List (String × β)) (k : String) (v : β) :
    assocLookup (assocInsert l k v) k = some v := by
  induction l with
  | nil => simp [assocInsert, assocLookup]
  | cons p l ih =>
    obtain ⟨pk, pv⟩ := p
    by_cases h : pk = k
    · simp [assocInsert, h, assocLookup]
    · simp [assocInsert, h, assocLookup, ih]

/-- Helper: looking up the updated key finds the updated value. -/
theorem assocUpdate_lookup_self {β : Type} (l : List (String × β)) (k : String) (f : β → β)
    (d : β) :
    assocLookup (assocUpdate l k f d) k = some (f ((assocLookup l k).getD d)) := by
  induction l with
  | nil => simp [assocUpdate, assocLookup]
  | cons p l ih =>
    obtain ⟨pk, pv⟩ := p
    by_cases h : pk = k
    · simp [assocUpdate, h, assocLookup]
    · simp [assocUpdate, h, assocLookup, ih]

/-- C8: `Transcriptome::insert` returns a duplicate-transcript error iff
the transcript's identifier is already in the catalog; in that case the
catalog — all four internal maps — is left unchanged, and on success the
transcript is recorded in the name map, the transcript-to-gene map, the
gene-to-transcripts map and the location index. -/
theorem transcriptome_insert_spec (tome : Transcriptome) (t : Transcript) :
    ((tome.insert t).1 = Except.error (TrxError.TrxExists t.trxname) ↔
      assocContains tome.trxname_to_transcript t.trxname = true) ∧
    (assocContains tome.trxname_to_transcript t.trxname = true → (tome.insert t).2 = tome) ∧
    (assocContains tome.trxname_to_transcript t.trxname = false →
      assocLookup (tome.insert t).2.trxname_to_transcript t.trxname = some t ∧
      assocLookup (tome.insert t).2.trxname_to_gene t.trxname = some t.gene ∧
      t.trxname ∈ (assocLookup (tome.insert t).2.gene_to_trxnames t.gene).getD [] ∧
      (t.trxname, t.loc) ∈ (tome.insert t).2.trxname_by_location) := by
  by_cases h : assocContains tome.trxname_to_transcript t.trxname
  · refine ⟨?_, fun _ => ?_, fun hc => ?_⟩
    · simp [Transcriptome.insert, h]
    · simp [Transcriptome.insert, h]
    · rw [hc] at h; simp at h
  · have hfalse : assocContains tome.trxname_to_transcript t.trxname = false := by
      simpa using h
    refine ⟨?_, fun hc => ?_, fun _ => ?_⟩
    · simp [Transcriptome.insert, hfalse]
    · rw [hc] at hfalse; simp at hfalse
    · refine ⟨?_, ?_, ?_, ?_⟩
      · simp [Transcriptome.insert, hfalse, assocLookup_insert_self]
      · simp [Transcriptome.insert, hfalse, assocLookup_insert_self]
      · simp [Transcriptome.insert, hfalse, assocUpdate_lookup_self]
      · simp [Transcriptome.insert, hfalse]

/-- C8 (witness): inserting into the empty catalog records the
transcript under its name. -/
theorem transcriptome_insert_spec_witness :
    assocLookup (Transcriptome.new.insert trxGene1A).2.trxname_to_transcript
      trxGene1A.trxname = some trxGene1A :=
  ((transcriptome_insert_spec Transcriptome.new trxGene1A).2.2 (by decide)).1

/-- Helper: the loop body of `ASites::from_str` writes exactly the entry
for the parsed length and leaves every other entry unchanged. -/
theorem offsetGet_extendSet (l : Nat) : ∀ (v : List (Option Nat)) (o a : Nat),
    offsetGet (extendSet v l o) a = if a = l then some o else offsetGet v a := by
  induction l with
  | zero =>
    intro v o a
    cases v <;> cases a <;> simp [extendSet, offsetGet]
  | succ l ih =>
    intro v o a
    cases v with
    | nil =>
      cases a with
      | zero => simp [extendSet, offsetGet]
      | succ a => simp [extendSet, offsetGet, ih]
    | cons x v =>
      cases a with
      | zero => simp [extendSet, offsetGet]
      | succ a => simp [extendSet, offsetGet, ih]

/-- Helper: lengths never written stay absent through the table-building
fold. -/
theorem buildLoop_absent : ∀ (ps : List (Nat × Nat)) (v : List (Option Nat)) (a : Nat),
    a ∉ ps.map Prod.fst →
    offsetGet (ps.foldl (fun v p => extendSet v p.1 p.2) v) a = offsetGet v a := by
  intro ps
  induction ps with
  | nil => intro v a _; rfl
  | cons p ps ih =>
    intro v a h
    simp only [List.map_cons, List.mem_cons, not_or] at h
    rw [List.foldl_cons, ih _ _ h.2, offsetGet_extendSet]
    simp [h.1]

/-- Helper: a recorded length maps to its recorded offset through the
table-building fold, provided lengths are not repeated. -/
theorem buildLoop_mem : ∀ (ps : List (Nat × Nat)) (v : List (Option Nat)) (a o : Nat),
    (ps.map Prod.fst).Nodup → (a, o) ∈ ps →
    offsetGet (ps.foldl (fun v p => extendSet v p.1 p.2) v) a = some o := by
  intro ps
  induction ps with
  | nil => intro v a o _ h; simp at h
  | cons p ps ih =>
    intro v a o hnd hmem
    obtain ⟨pa, po⟩ := p
    rw [List.map_cons, List.nodup_cons] at hnd
    rw [List.foldl_cons]
    rcases List.mem_cons.mp hmem with heq | hmem2
    · rw [Prod.mk.injEq] at heq
      obtain ⟨ha, ho⟩ := heq
      subst ha
      subst ho
      rw [buildLoop_absent ps _ a hnd.1, offsetGet_extendSet]
      simp
    · exact ih _ a o hnd.2 hmem2

/-- C4: an A-site table maps every recorded fragment length to its
recorded offset and every unrecorded length (including lengths below and
above the recorded range) to nothing; in particular the table
`"27\t14\n28\t15\n"` gives `offset 26 = none`, `offset 27 = some 14`,
`offset 28 = some 15` and `offset 29 = none`. -/
theorem asites_offset_spec :
    (∀ ps : List (Nat × Nat), (ps.map Prod.fst).Nodup → ∀ a o,
      ((a, o) ∈ ps → ASites.offset ⟨buildFromPairs ps⟩ a = some o) ∧
      (a ∉ ps.map Prod.fst → ASites.offset ⟨buildFromPairs ps⟩ a = none)) ∧
    ∃ asites, ASites.from_str "27\t14\n28\t15\n" = .ok asites ∧
      asites.offset 26 = none ∧ asites.offset 27 = some 14 ∧
      asites.offset 28 = some 15 ∧ asites.offset 29 = none := by
  constructor
  · intro ps hnd a o
    constructor
    · intro hmem
      exact buildLoop_mem ps [] a o hnd hmem
    · intro habs
      rw [ASites.offset, buildFromPairs, buildLoop_absent ps [] a habs]
      rfl
  · refine ⟨⟨List.replicate 27 none ++ [some 14, some 15]⟩, ?_, ?_, ?_, ?_, ?_⟩ <;> rfl

/-- C4 (witness): the recorded/absent rule applied at the example
table's pairs. -/
theorem asites_offset_spec_witness :
    ASites.offset ⟨buildFromPairs [(27, 14), (28, 15)]⟩ 27 = some 14 ∧
    ASites.offset ⟨buildFromPairs [(27, 14), (28, 15)]⟩ 26 = none :=
  ⟨(asites_offset_spec.1 [(27, 14), (28, 15)] (by decide) 27 14).1 (by decide),
   (asites_offset_spec.1 [(27, 14), (28, 15)] (by decide) 26 0).2 (by decide)⟩

/-- Helper: mapping the success value does not change whether an
`Except` is a success. -/
theorem exceptOk_map {ε α β : Type} (f : α → β) (x : Except ε α) :
    exceptOk (x.map f) = exceptOk x := by
  cases x <;> rfl

/-- Helper: the `ASites::from_str` loop succeeds iff every remaining line
is well-shaped with machine-word values. -/
theorem asitesLoop_ok_iff : ∀ (ls : List (List Char)) (v : List (Option Nat)),
    exceptOk (asitesLoop v ls) = true ↔ ∀ l ∈ ls, goodLine l = true := by
  intro ls
  induction ls with
  | nil => intro v; simp [asitesLoop, exceptOk]
  | cons line rest ih =>
    intro v
    simp only [asitesLoop]
    cases hs : shapeMatch (trimRight line) with
    | none => simp [exceptOk, goodLine, hs]
    | some ab =>
      obtain ⟨da, db⟩ := ab
      cases hpa : parseUsize da with
      | none => simp [hpa, exceptOk, goodLine, hs]
      | some la =>
        cases hpb : parseUsize db with
        | none => simp [hpa, hpb, exceptOk, goodLine, hs]
        | some lb => simp [hpa, hpb, ih, goodLine, hs]

/-- Helper: with all earlier lines well-formed, a line that fails the
shape match aborts the loop with `BadLine` carrying that line. -/
theorem asitesLoop_first_bad :
    ∀ (pre : List (List Char)) (v : List (Option Nat)) (l : List Char)
      (suf : List (List Char)),
      (∀ p ∈ pre, goodLine p = true) → shapeMatch (trimRight l) = none →
      asitesLoop v (pre ++ l :: suf) = .error (.BadLine (String.mk (trimRight l))) := by
  intro pre
  induction pre with
  | nil => intro v l suf _ hs; simp [asitesLoop, hs]
  | cons p pre ih =>
    intro v l suf hg hs
    have hp : goodLine p = true := hg p (by simp)
    unfold goodLine at hp
    cases hsp : shapeMatch (trimRight p) with
    | none => rw [hsp] at hp; simp at hp
    | some ab =>
      obtain ⟨da, db⟩ := ab
      rw [hsp] at hp
      simp only [Bool.and_eq_true, Option.isSome_iff_exists] at hp
      obtain ⟨⟨la, hla⟩, lb, hlb⟩ := hp
      simp only [List.cons_append, asitesLoop, hsp, hla, hlb]
      exact ih _ l suf (fun q hq => hg q (by simp [hq])) hs

/-- C3 (counterexample): the line `27 14` consists of two
whitespace-separated non-negative integers, yet `ASites::from_str`
rejects it — the separator must be exactly one tab character. -/
theorem asites_space_separated_rejected :
    ASites.from_str "27 14" = .error (.BadLine "27 14") := rfl

/-- C3 (amended): for an ASCII input — where the embedding of the
regex's `\d` is exact — parsing an A-site table succeeds iff every line,
after trimming trailing whitespace, is two digit runs separated by a
single tab with both values fitting the 64-bit machine word; the first
line failing that shape aborts parsing with a fatal `BadLine` error
carrying the (right-trimmed) offending line. -/
theorem asites_from_str_spec (table : String)
    (_hascii : ∀ c ∈ table.data, c.toNat < 128) :
    (exceptOk (ASites.from_str table) = true ↔ ∀ l ∈ rustLines table, goodLine l = true) ∧
    ∀ pre l suf, rustLines table = pre ++ l :: suf →
      (∀ p ∈ pre, goodLine p = true) → shapeMatch (trimRight l) = none →
      ASites.from_str table = .error (.BadLine (String.mk (trimRight l))) := by
  constructor
  · rw [ASites.from_str, exceptOk_map]
    exact asitesLoop_ok_iff (rustLines table) []
  · intro pre l suf heq hg hs
    rw [ASites.from_str, heq, asitesLoop_first_bad pre [] l suf hg hs]
    rfl

/-- C3 (witness): the amended acceptance rule applied at a concrete
well-formed table. -/
theorem asites_from_str_spec_witness :
    exceptOk (ASites.from_str "1\t2") = true :=
  (asites_from_str_spec "1\t2" (by decide)).1.mpr (by decide)

/-- Helper: total length of an empty exon list. -/
theorem exonTotalLength_nil : exonTotalLength [] = 0 := rfl

/-- Helper: total length of a cons exon list. -/
theorem exonTotalLength_cons (e : Exon) (es : List Exon) :
    exonTotalLength (e :: es) = e.2 + exonTotalLength es := by
  simp [exonTotalLength]

/-- Helper: total length of an appended exon list. -/
theorem exonTotalLength_append (a b : List Exon) :
    exonTotalLength (a ++ b) = exonTotalLength a + exonTotalLength b := by
  simp [exonTotalLength]

/-- Helper: the forward-concatenation offset of the `d`-th base of an
exon is the total length of the preceding exons plus `d`, provided the
preceding exons all end at or before this exon's start. -/
theorem findFwdOffset_at (e : Exon) (suf : List Exon) (d : Int) (h0 : 0 ≤ d)
    (hd : d < (e.2 : Int)) :
    ∀ pre : List Exon, (∀ a ∈ pre, a.1 + (a.2 : Int) ≤ e.1) →
      findFwdOffset (pre ++ e :: suf) (e.1 + d) = some (exonTotalLength pre + d.toNat) := by
  intro pre
  induction pre with
  | nil =>
    intro _
    simp only [List.nil_append, findFwdOffset]
    rw [if_pos ⟨by omega, by omega⟩]
    rw [exonTotalLength_nil]
    congr 1
    omega
  | cons a pre ih =>
    intro hpre
    have ha := hpre a (by simp)
    simp only [List.cons_append, findFwdOffset]
    rw [if_neg (by intro hcon; omega)]
    rw [List.append_eq, ih (fun x hx => hpre x (by simp [hx]))]
    simp only [Option.map_some']
    congr 1
    rw [exonTotalLength_cons]
    omega

/-- Helper: a found forward-concatenation offset is below the total
length. -/
theorem findFwdOffset_lt : ∀ (es : List Exon) (p : Int) (f : Nat),
    findFwdOffset es p = some f → f < exonTotalLength es := by
  intro es
  induction es with
  | nil => intro p f h; simp [findFwdOffset] at h
  | cons e es ih =>
    intro p f h
    simp only [findFwdOffset] at h
    by_cases hc : e.1 ≤ p ∧ p < e.1 + (e.2 : Int)
    · rw [if_pos hc] at h
      have hf := Option.some.inj h
      rw [exonTotalLength_cons]
      omega
    · rw [if_neg hc] at h
      cases hfind : findFwdOffset es p with
      | none => rw [hfind] at h; simp at h
      | some f2 =>
        rw [hfind] at h
        simp only [Option.map_some'] at h
        have hf := Option.some.inj h
        have := ih p f2 hfind
        rw [exonTotalLength_cons]
        omega

/-- Helper: a genomic coordinate produced by `posAtFwdOffset` lies inside
one of the exons. -/
theorem posAtFwdOffset_mem : ∀ (es : List Exon) (f : Nat) (g : Int),
    posAtFwdOffset es f = some g → ∃ e ∈ es, e.1 ≤ g ∧ g < e.1 + (e.2 : Int) := by
  intro es
  induction es with
  | nil => intro f g h; simp [posAtFwdOffset] at h
  | cons e es ih =>
    intro f g h
    simp only [posAtFwdOffset] at h
    by_cases hc : f < e.2
    · rw [if_pos hc] at h
      have := Option.some.inj h
      exact ⟨e, by simp, by omega⟩
    · rw [if_neg hc] at h
      obtain ⟨e2, he2, hb⟩ := ih _ _ h
      exact ⟨e2, by simp [he2], hb⟩

/-- Helper: for a well-formed exon list, every forward offset below the
total length maps out to a genomic coordinate that maps back to the same
offset. -/
theorem posAt_roundtrip : ∀ es : List Exon, (∀ e ∈ es, 0 < e.2) →
    es.Pairwise (fun a b => a.1 + (a.2 : Int) ≤ b.1) →
    ∀ f : Nat, f < exonTotalLength es →
      ∃ g, posAtFwdOffset es f = some g ∧ findFwdOffset es g = some f := by
  intro es
  induction es with
  | nil =>
    intro _ _ f hf
    rw [exonTotalLength_nil] at hf
    omega
  | cons e es ih =>
    intro hlen hpair f hf
    rw [List.pairwise_cons] at hpair
    by_cases hc : f < e.2
    · refine ⟨e.1 + (f : Int), ?_, ?_⟩
      · simp [posAtFwdOffset, hc]
      · simp only [findFwdOffset]
        rw [if_pos ⟨by omega, by omega⟩]
        congr 1
        omega
    · rw [exonTotalLength_cons] at hf
      obtain ⟨g, hg, hfind⟩ :=
        ih (fun x hx => hlen x (by simp [hx])) hpair.2 (f - e.2) (by omega)
      refine ⟨g, ?_, ?_⟩
      · simp [posAtFwdOffset, hc, hg]
      · obtain ⟨e2, he2, hb⟩ := posAtFwdOffset_mem es _ _ hg
        have hge : e.1 + (e.2 : Int) ≤ e2.1 := hpair.1 e2 he2
        simp only [findFwdOffset]
        rw [if_neg (by intro hcon; omega)]
        rw [hfind]
        simp only [Option.map_some']
        congr 1
        omega

/-- C7: coordinate projection round-trips — for a well-formed spliced
location and any internal coordinate `i` in `[0, length)`, projecting `i`
out to an absolute genomic position always succeeds, and projecting that
position back in yields `i` again (strand-normalized to Forward). -/
theorem pos_outof_pos_into_roundtrip (loc : Spliced) (r : String) (i : Int)
    (hwf : loc.WF) (h0 : 0 ≤ i) (hi : i < (loc.exon_total_length : Int)) :
    ∃ q, pos_outof loc ⟨r, i, Strand.fwd⟩ = some q ∧
      pos_into loc q = some ⟨loc.refid, i, Strand.fwd⟩ := by
  obtain ⟨hne, hlen, hpair⟩ := hwf
  cases hstr : loc.strand with
  | fwd =>
    obtain ⟨g, hg, hfind⟩ := posAt_roundtrip loc.exons hlen hpair i.toNat (by
      rw [Spliced.exon_total_length] at hi
      omega)
    refine ⟨⟨loc.refid, g, Strand.fwd⟩, ?_, ?_⟩
    · simp only [pos_outof, hstr]
      rw [if_pos h0, if_pos h0, hg]
      simp [strandInto]
    · simp only [pos_into, hstr, hfind]
      simp [strandInto, GPos.mk.injEq]
      omega
  | rev =>
    have htot : i < (exonTotalLength loc.exons : Int) := by
      rw [Spliced.exon_total_length] at hi
      exact hi
    obtain ⟨g, hg, hfind⟩ :=
      posAt_roundtrip loc.exons hlen hpair ((loc.exon_total_length : Int) - 1 - i).toNat (by
        rw [Spliced.exon_total_length] at hi ⊢
        omega)
    refine ⟨⟨loc.refid, g, Strand.rev⟩, ?_, ?_⟩
    · simp only [pos_outof, hstr]
      rw [if_pos h0, if_pos (by rw [Spliced.exon_total_length]; omega), hg]
      simp [strandInto, Strand.flip]
    · simp only [pos_into, hstr, hfind]
      simp [strandInto, Strand.flip, GPos.mk.injEq]
      rw [Spliced.exon_total_length] at hi ⊢
      omega

/-- C7 (witness): the round-trip at a concrete two-exon reverse-strand
location and internal coordinate 7. -/
theorem pos_outof_pos_into_roundtrip_witness :
    ∃ q, pos_outof locW ⟨"z", 7, Strand.fwd⟩ = some q ∧
      pos_into locW q = some ⟨locW.refid, 7, Strand.fwd⟩ :=
  pos_outof_pos_into_roundtrip locW "z" 7 (by decide) (by decide) (by decide)

/-- Helper: projecting the `d`-th base of an exon into its spliced
location, for any strand of the queried position. -/
theorem pos_into_exon (loc : Spliced) (pre : List Exon) (e : Exon) (suf : List Exon)
    (heq : loc.exons = pre ++ e :: suf) (hpre : ∀ a ∈ pre, a.1 + (a.2 : Int) ≤ e.1)
    (d : Int) (h0 : 0 ≤ d) (hd : d < (e.2 : Int)) (s : Strand) :
    pos_into loc ⟨loc.refid, e.1 + d, s⟩ =
      some ⟨loc.refid,
        match loc.strand with
        | .fwd => (exonTotalLength pre : Int) + d
        | .rev => (exonTotalLength suf : Int) + ((e.2 : Int) - 1 - d),
        strandInto loc.strand s⟩ := by
  have hfind : findFwdOffset loc.exons (e.1 + d) = some (exonTotalLength pre + d.toNat) := by
    rw [heq]
    exact findFwdOffset_at e suf d h0 hd pre hpre
  have htot : loc.exon_total_length = exonTotalLength pre + e.2 + exonTotalLength suf := by
    rw [Spliced.exon_total_length, heq, exonTotalLength_append, exonTotalLength_cons]
    omega
  simp only [pos_into, hfind]
  cases hstr : loc.strand with
  | fwd =>
    simp [hstr, strandInto, GPos.mk.injEq]
    omega
  | rev =>
    simp [hstr, strandInto, GPos.mk.injEq, htot]
    omega

/-- Helper: reflexivity of the `splice_compatible` loop on the remaining
exons of a forward-strand location. -/
theorem spliceCompatAux_refl_fwd (loc : Spliced) (hstr : loc.strand = Strand.fwd)
    (hlen : ∀ e ∈ loc.exons, 0 < e.2)
    (hpair : loc.exons.Pairwise (fun a b => a.1 + (a.2 : Int) ≤ b.1)) :
    ∀ suf pre : List Exon, loc.exons = pre ++ suf →
      spliceCompatAux loc ((exonTotalLength pre : Int) - 1)
        (suf.map fun e => Contig.mk loc.refid e.1 e.2 loc.strand) = true := by
  intro suf
  induction suf with
  | nil => intro pre _; rfl
  | cons e suf ih =>
    intro pre heq
    have hel : 0 < e.2 := hlen e (by rw [heq]; simp)
    have hpre : ∀ a ∈ pre, a.1 + (a.2 : Int) ≤ e.1 := by
      intro a ha
      exact (List.pairwise_append.mp (heq ▸ hpair)).2.2 a ha e (by simp)
    have hcfp : (Contig.mk loc.refid e.1 e.2 loc.strand).first_pos =
        ⟨loc.refid, e.1, Strand.fwd⟩ := by
      simp [Contig.first_pos, hstr]
    have hclp : (Contig.mk loc.refid e.1 e.2 loc.strand).last_pos =
        ⟨loc.refid, e.1 + (e.2 : Int) - 1, Strand.fwd⟩ := by
      simp [Contig.last_pos, hstr]
    have hfirst : pos_into loc ⟨loc.refid, e.1, Strand.fwd⟩ =
        some ⟨loc.refid, (exonTotalLength pre : Int), Strand.fwd⟩ := by
      have h := pos_into_exon loc pre e suf heq hpre 0 le_rfl (by exact_mod_cast hel)
        Strand.fwd
      rw [show e.1 + (0 : Int) = e.1 by ring] at h
      simpa [hstr, strandInto] using h
    have hlast : pos_into loc ⟨loc.refid, e.1 + (e.2 : Int) - 1, Strand.fwd⟩ =
        some ⟨loc.refid, (exonTotalLength pre : Int) + ((e.2 : Int) - 1), Strand.fwd⟩ := by
      have h := pos_into_exon loc pre e suf heq hpre ((e.2 : Int) - 1) (by omega) (by omega)
        Strand.fwd
      rw [show e.1 + ((e.2 : Int) - 1) = e.1 + (e.2 : Int) - 1 by ring] at h
      simpa [hstr, strandInto] using h
    simp only [List.map_cons, spliceCompatAux, hcfp, hclp, hfirst, hlast]
    rw [if_neg (by omega), if_neg (by omega)]
    have harr : (exonTotalLength (pre ++ [e]) : Int) - 1 =
        (exonTotalLength pre : Int) + ((e.2 : Int) - 1) := by
      rw [exonTotalLength_append, exonTotalLength_cons, exonTotalLength_nil]
      push_cast
      ring
    rw [← harr]
    exact ih (pre ++ [e]) (by rw [heq]; simp)

/-- Helper: reflexivity of the `splice_compatible` loop on the remaining
(transcription-order) exons of a reverse-strand location. -/
theorem spliceCompatAux_refl_rev (loc : Spliced) (hstr : loc.strand = Strand.rev)
    (hlen : ∀ e ∈ loc.exons, 0 < e.2)
    (hpair : loc.exons.Pairwise (fun a b => a.1 + (a.2 : Int) ≤ b.1)) :
    ∀ rpre suf : List Exon, loc.exons = rpre.reverse ++ suf →
      spliceCompatAux loc ((exonTotalLength suf : Int) - 1)
        (rpre.map fun e => Contig.mk loc.refid e.1 e.2 loc.strand) = true := by
  intro rpre
  induction rpre with
  | nil => intro suf _; rfl
  | cons e rpre ih =>
    intro suf heq
    have heq2 : loc.exons = rpre.reverse ++ (e :: suf) := by rw [heq]; simp
    have hel : 0 < e.2 := hlen e (by rw [heq2]; simp)
    have hpre : ∀ a ∈ rpre.reverse, a.1 + (a.2 : Int) ≤ e.1 := by
      intro a ha
      exact (List.pairwise_append.mp (heq2 ▸ hpair)).2.2 a ha e (by simp)
    have hcfp : (Contig.mk loc.refid e.1 e.2 loc.strand).first_pos =
        ⟨loc.refid, e.1 + (e.2 : Int) - 1, Strand.rev⟩ := by
      simp [Contig.first_pos, hstr]
    have hclp : (Contig.mk loc.refid e.1 e.2 loc.strand).last_pos =
        ⟨loc.refid, e.1, Strand.rev⟩ := by
      simp [Contig.last_pos, hstr]
    have hfirst : pos_into loc ⟨loc.refid, e.1 + (e.2 : Int) - 1, Strand.rev⟩ =
        some ⟨loc.refid, (exonTotalLength suf : Int), Strand.fwd⟩ := by
      have h := pos_into_exon loc rpre.reverse e suf heq2 hpre ((e.2 : Int) - 1) (by omega)
        (by omega) Strand.rev
      rw [show e.1 + ((e.2 : Int) - 1) = e.1 + (e.2 : Int) - 1 by ring] at h
      simpa [hstr, strandInto, Strand.flip] using h
    have hlast : pos_into loc ⟨loc.refid, e.1, Strand.rev⟩ =
        some ⟨loc.refid, (exonTotalLength suf : Int) + ((e.2 : Int) - 1), Strand.fwd⟩ := by
      have h := pos_into_exon loc rpre.reverse e suf heq2 hpre 0 le_rfl
        (by exact_mod_cast hel) Strand.rev
      rw [show e.1 + (0 : Int) = e.1 by ring] at h
      simpa [hstr, strandInto, Strand.flip] using h
    simp only [List.map_cons, spliceCompatAux, hcfp, hclp, hfirst, hlast]
    rw [if_neg (by omega), if_neg (by omega)]
    have harr : (exonTotalLength (e :: suf) : Int) - 1 =
        (exonTotalLength suf : Int) + ((e.2 : Int) - 1) := by
      rw [exonTotalLength_cons]
      push_cast
      ring
    rw [← harr]
    exact ih (e :: suf) heq2

/-- C6: `splice_compatible` is reflexive — every well-formed spliced
location is compatible with itself, on either strand and for any number
of exons. -/
theorem splice_compatible_refl (loc : Spliced) (hwf : loc.WF) :
    splice_compatible loc loc = true := by
  obtain ⟨hne, hlen, hpair⟩ := hwf
  cases hstr : loc.strand with
  | fwd =>
    obtain ⟨e0, rest, hes⟩ := List.exists_cons_of_ne_nil hne
    have hcontigs : loc.exon_contigs =
        Contig.mk loc.refid e0.1 e0.2 loc.strand ::
          (rest.map fun e => Contig.mk loc.refid e.1 e.2 loc.strand) := by
      simp [Spliced.exon_contigs, hstr, hes]
    have hel : 0 < e0.2 := hlen e0 (by rw [hes]; simp)
    have hcfp : (Contig.mk loc.refid e0.1 e0.2 loc.strand).first_pos =
        ⟨loc.refid, e0.1, Strand.fwd⟩ := by
      simp [Contig.first_pos, hstr]
    have hclp : (Contig.mk loc.refid e0.1 e0.2 loc.strand).last_pos =
        ⟨loc.refid, e0.1 + (e0.2 : Int) - 1, Strand.fwd⟩ := by
      simp [Contig.last_pos, hstr]
    have hfirst : pos_into loc ⟨loc.refid, e0.1, Strand.fwd⟩ =
        some ⟨loc.refid, (0 : Int), Strand.fwd⟩ := by
      have h := pos_into_exon loc [] e0 rest hes (by simp) 0 le_rfl
        (by exact_mod_cast hel) Strand.fwd
      rw [show e0.1 + (0 : Int) = e0.1 by ring] at h
      simpa [hstr, strandInto, exonTotalLength_nil] using h
    have hlast : pos_into loc ⟨loc.refid, e0.1 + (e0.2 : Int) - 1, Strand.fwd⟩ =
        some ⟨loc.refid, (e0.2 : Int) - 1, Strand.fwd⟩ := by
      have h := pos_into_exon loc [] e0 rest hes (by simp) ((e0.2 : Int) - 1) (by omega)
        (by omega) Strand.fwd
      rw [show e0.1 + ((e0.2 : Int) - 1) = e0.1 + (e0.2 : Int) - 1 by ring] at h
      simpa [hstr, strandInto, exonTotalLength_nil] using h
    simp only [splice_compatible, hcontigs, hcfp, hclp, hfirst, hlast]
    rw [if_neg (by simp), if_neg (by omega)]
    have harr : (exonTotalLength [e0] : Int) - 1 = (e0.2 : Int) - 1 := by
      rw [exonTotalLength_cons, exonTotalLength_nil]
      push_cast
      ring
    rw [← harr]
    exact spliceCompatAux_refl_fwd loc hstr hlen hpair rest [e0] (by rw [hes]; rfl)
  | rev =>
    rcases List.eq_nil_or_concat loc.exons with hnil | ⟨init, last, hcat⟩
    · exact absurd hnil hne
    · have hes : loc.exons = init ++ [last] := by rw [hcat]; simp
      have hes2 : loc.exons = init ++ last :: [] := hes
      have hcontigs : loc.exon_contigs =
          Contig.mk loc.refid last.1 last.2 loc.strand ::
            (init.reverse.map fun e => Contig.mk loc.refid e.1 e.2 loc.strand) := by
        simp [Spliced.exon_contigs, hstr, hes, List.map_reverse]
      have hel : 0 < last.2 := hlen last (by rw [hes]; simp)
      have hpre0 : ∀ a ∈ init, a.1 + (a.2 : Int) ≤ last.1 := by
        intro a ha
        exact (List.pairwise_append.mp (hes2 ▸ hpair)).2.2 a ha last (by simp)
      have hcfp : (Contig.mk loc.refid last.1 last.2 loc.strand).first_pos =
          ⟨loc.refid, last.1 + (last.2 : Int) - 1, Strand.rev⟩ := by
        simp [Contig.first_pos, hstr]
      have hclp : (Contig.mk loc.refid last.1 last.2 loc.strand).last_pos =
          ⟨loc.refid, last.1, Strand.rev⟩ := by
        simp [Contig.last_pos, hstr]
      have hfirst : pos_into loc ⟨loc.refid, last.1 + (last.2 : Int) - 1, Strand.rev⟩ =
          some ⟨loc.refid, (0 : Int), Strand.fwd⟩ := by
        have h := pos_into_exon loc init last [] hes2 hpre0 ((last.2 : Int) - 1) (by omega)
          (by omega) Strand.rev
        rw [show last.1 + ((last.2 : Int) - 1) = last.1 + (last.2 : Int) - 1 by ring] at h
        simpa [hstr, strandInto, Strand.flip, exonTotalLength_nil] using h
      have hlast : pos_into loc ⟨loc.refid, last.1, Strand.rev⟩ =
          some ⟨loc.refid, (last.2 : Int) - 1, Strand.fwd⟩ := by
        have h := pos_into_exon loc init last [] hes2 hpre0 0 le_rfl
          (by exact_mod_cast hel) Strand.rev
        rw [show last.1 + (0 : Int) = last.1 by ring] at h
        simpa [hstr, strandInto, Strand.flip, exonTotalLength_nil] using h
      simp only [splice_compatible, hcontigs, hcfp, hclp, hfirst, hlast]
      rw [if_neg (by simp), if_neg (by omega)]
      have harr : (exonTotalLength [last] : Int) - 1 = (last.2 : Int) - 1 := by
        rw [exonTotalLength_cons, exonTotalLength_nil]
        push_cast
        ring
      rw [← harr]
      exact spliceCompatAux_refl_rev loc hstr hlen hpair init.reverse [last]
        (by rw [hes]; simp)

/-- C6 (witness): reflexivity at a concrete two-exon reverse-strand
location. -/
theorem splice_compatible_refl_witness : splice_compatible locW locW = true :=
  splice_compatible_refl locW (by decide)

/-- Helper: the head of the contig list of a spliced location has the
location's 5'-most position as its own first position. -/
theorem head_contig_first_pos (fp : Spliced) (c0 : Contig) (rest : List Contig)
    (hc : fp.exon_contigs = c0 :: rest) : c0.first_pos = fp.first_pos := by
  cases hstr : fp.strand with
  | fwd =>
    simp only [Spliced.exon_contigs, hstr] at hc
    cases hes : fp.exons with
    | nil => rw [hes] at hc; simp at hc
    | cons e0 tl =>
      rw [hes] at hc
      simp only [List.map_cons, List.cons.injEq] at hc
      rw [← hc.1]
      simp [Contig.first_pos, Spliced.first_pos, hstr, hes]
  | rev =>
    simp only [Spliced.exon_contigs, hstr] at hc
    rcases List.eq_nil_or_concat fp.exons with hnil | ⟨init, last, hcat⟩
    · rw [hnil] at hc; simp at hc
    · have hes : fp.exons = init ++ [last] := by rw [hcat]; simp
      rw [hes] at hc
      rw [List.map_append, List.reverse_append] at hc
      simp only [List.map_cons, List.map_nil, List.reverse_cons, List.reverse_nil,
        List.nil_append, List.cons_append, List.cons.injEq] at hc
      rw [← hc.1]
      simp [Contig.first_pos, Spliced.first_pos, hstr, hes, List.getLast?_concat]

/-- Helper: a successful projection never yields a negative internal
coordinate. -/
theorem pos_into_nonneg (loc : Spliced) (p q : GPos) (h : pos_into loc p = some q) :
    0 ≤ q.pos := by
  unfold pos_into at h
  by_cases hr : p.refid = loc.refid
  · rw [if_pos hr] at h
    cases hf : findFwdOffset loc.exons p.pos with
    | none => rw [hf] at h; simp at h
    | some f =>
      rw [hf] at h
      simp only [Option.map_some'] at h
      have hlt := findFwdOffset_lt loc.exons p.pos f hf
      have hq := congrArg GPos.pos (Option.some.inj h)
      rw [← hq]
      cases hstr : loc.strand with
      | fwd => simp [hstr]
      | rev =>
        simp only [hstr]
        rw [Spliced.exon_total_length]
        omega
  · rw [if_neg hr] at h
    simp at h

/-- C10: whenever a footprint is splice-compatible with a transcript,
projecting the footprint's 5'-most position into the transcript's
location succeeds with Forward strand and a non-negative coordinate, so
the `expect` and both `assert!`s in `fp_into_transcript` cannot fire and
`fp_into_transcript` returns `Some`. -/
theorem fp_into_transcript_total (trx : Transcript) (fp : Spliced)
    (h : splice_compatible trx.loc fp = true) :
    ∃ p, pos_into trx.loc fp.first_pos = some p ∧ p.strand = Strand.fwd ∧ 0 ≤ p.pos ∧
      fp_into_transcript fp trx = some ⟨trx, p.pos.toNat⟩ := by
  have h0 := h
  cases hc : fp.exon_contigs with
  | nil => simp only [splice_compatible, hc] at h; simp at h
  | cons c0 rest =>
    simp only [splice_compatible, hc] at h
    cases hp : pos_into trx.loc c0.first_pos with
    | none => simp only [hp] at h; simp at h
    | some c0in =>
      simp only [hp] at h
      by_cases hstr : c0in.strand ≠ Strand.fwd
      · rw [if_pos hstr] at h; simp at h
      · have hstrand : c0in.strand = Strand.fwd := by simpa using hstr
        have hfp_eq : c0.first_pos = fp.first_pos := head_contig_first_pos fp c0 rest hc
        have hpos : 0 ≤ c0in.pos := pos_into_nonneg trx.loc c0.first_pos c0in hp
        refine ⟨c0in, by rw [← hfp_eq]; exact hp, hstrand, hpos, ?_⟩
        unfold fp_into_transcript
        rw [if_pos h0, ← hfp_eq, hp]
        simp [hstrand, hpos]

/-- C10 (witness): the projection at a concrete compatible
transcript/footprint pair. -/
theorem fp_into_transcript_total_witness :
    ∃ p, pos_into trxGene1A.loc fpW10.first_pos = some p ∧ p.strand = Strand.fwd ∧
      0 ≤ p.pos ∧ fp_into_transcript fpW10 trxGene1A = some ⟨trxGene1A, p.pos.toNat⟩ :=
  fp_into_transcript_total trxGene1A fpW10 (by decide)

end Riboprof
